import Mathlib

/-!
Shallow embedding of the core of `File_Organizer.py` (class `FileOrganizer`):
the classifier, the exclusion filter, the operation executor with conflict
resolution, the undo stack, the run orchestrator and the statistics
aggregator.  The file system is modelled as an association list from paths
(lists of components) to file contents plus a list of directory paths; the
regular-expression engine and the modification-time clock are abstracted as
function parameters, and OS-level per-file transfer failures are modelled by
a set of source paths whose transfer raises.
-/

/-- A path is a list of components; `os.path.join(d, n)` is `d ++ [n]`. -/
abbrev FPath := List String

/-- The file system: files as an association list path ↦ content, plus the
set of directories.  A file's byte size is the length of its content. -/
structure FS where
  files : List (FPath × String)
  dirs : List FPath
deriving DecidableEq

/-- Content at a path (`None` when no file is there). -/
def FS.fileContent (fs : FS) (p : FPath) : Option String :=
  (fs.files.find? (fun e => e.1 == p)).map Prod.snd

/-- Embedding of `os.path.exists`: true for a file or a directory. -/
def FS.existsPath (fs : FS) (p : FPath) : Bool :=
  fs.files.any (fun e => e.1 == p) || fs.dirs.any (fun d => d == p)

/-- Embedding of `os.path.isdir`. -/
def FS.isdir (fs : FS) (p : FPath) : Bool :=
  fs.dirs.any (fun d => d == p)

/-- Embedding of `os.path.getsize` (0 when the file is absent; in the code
the path always names an existing file when it is queried). -/
def FS.getsize (fs : FS) (p : FPath) : Nat :=
  match fs.fileContent p with
  | some c => c.length
  | none => 0

/-- All non-empty prefixes of a path, shortest first. -/
def pathAncestors (p : FPath) : List FPath :=
  (List.range p.length).map (fun i => p.take (i + 1))

/-- Embedding of `os.makedirs`: creates the directory and every missing
intermediate directory. -/
def FS.makedirs (fs : FS) (p : FPath) : FS :=
  { fs with dirs := fs.dirs ++ (pathAncestors p).filter (fun q => !(fs.isdir q)) }

/-- Embedding of `os.listdir`: the names of the direct children of `d`
(files first, then directories, in storage order). -/
def FS.listdir (fs : FS) (d : FPath) : List String :=
  (fs.files.map Prod.fst ++ fs.dirs).filterMap (fun p =>
    if p.dropLast == d then p.getLast? else none)

/-- Embedding of `shutil.move`: relocates the file at `src` to `dst`
(no-op when `src` does not name a file). -/
def FS.move (fs : FS) (src dst : FPath) : FS :=
  match fs.fileContent src with
  | some c => { fs with files := fs.files.filter (fun e => !(e.1 == src)) ++ [(dst, c)] }
  | none => fs

/-- Embedding of `shutil.copy2`: duplicates the file at `src` to `dst`. -/
def FS.copy2 (fs : FS) (src dst : FPath) : FS :=
  match fs.fileContent src with
  | some c => { fs with files := fs.files ++ [(dst, c)] }
  | none => fs

/-- Embedding of `os.remove`. -/
def FS.remove (fs : FS) (p : FPath) : FS :=
  { fs with files := fs.files.filter (fun e => !(e.1 == p)) }

/-- Operation kind stored in an operation record (the string discriminator
`"move"`/`"copy"` of the Python dictionary). -/
inductive OpKind where
  | move
  | copy
deriving DecidableEq

/-- An operation record as appended to `self.operation_history`. -/
structure Operation where
  kind : OpKind
  source : FPath
  destination : FPath
deriving DecidableEq

/-- The `self.stats` dictionary. -/
structure Stats where
  total_files : Nat
  organized_files : Nat
  skipped_files : Nat
  categories : List (String × Nat)
  total_size : Nat
deriving DecidableEq

/-- The mutable state of a `FileOrganizer` instance that the core operations
read and write. -/
structure Organizer where
  file_types : List (String × List String)
  excluded_patterns : List String
  operation_history : List Operation
  stats : Stats
deriving DecidableEq

/-- The configuration record written by `save_config`. -/
structure Config where
  file_types : List (String × List String)
  excluded_patterns : List String
deriving DecidableEq

/-- The default category table `self.default_file_types`. -/
def default_file_types : List (String × List String) :=
  [("Videos", [".mp4", ".mkv", ".flv", ".avi", ".mov", ".wmv", ".m4v", ".mpg", ".mpeg"]),
   ("Photos", [".jpg", ".jpeg", ".png", ".cr2", ".gif", ".bmp", ".tiff", ".svg", ".webp", ".raw"]),
   ("Music", [".mp3", ".wav", ".aac", ".flac", ".ogg", ".m4a", ".wma", ".opus"]),
   ("Documents", [".pdf", ".doc", ".docx", ".xls", ".xlsx", ".ppt", ".pptx", ".txt", ".rtf", ".odt", ".md", ".csv"]),
   ("Archives", [".zip", ".rar", ".7z", ".tar", ".gz", ".bz2", ".xz"]),
   ("Code", [".py", ".java", ".cpp", ".c", ".h", ".js", ".html", ".css", ".php", ".rb", ".go", ".rs", ".json"]),
   ("Executables", [".exe", ".msi", ".app", ".bat", ".sh"])]

/-- The script's own file name, `os.path.basename(__file__)`. -/
def scriptName : String := "File_Organizer.py"

/-- Environment of a run: `matchAt pat t` abstracts the regex engine
(whether compiled pattern `pat` matches at the start of the text suffix
`t`); `dateOf` abstracts `getmtime` + `strftime` (the `YYYY-MM-DD` bucket
of a path's modification time); `failing` is the set of source paths whose
transfer raises `PermissionError`/`OSError`. -/
structure Ctx where
  matchAt : String → List Char → Bool
  dateOf : FPath → String
  failing : List FPath

/-- Embedding of `re.search`: the pattern matches somewhere inside the
string, i.e. at the start of some suffix. -/
def research (matchAt : String → List Char → Bool) (pat : String) (s : String) : Bool :=
  s.data.tails.any (matchAt pat)

/-- Embedding of `FileOrganizer.is_excluded`: loop over
`self.excluded_patterns`, return `True` on the first `re.search` hit. -/
def is_excluded (matchAt : String → List Char → Bool)
    (excluded_patterns : List String) (filename : String) : Bool :=
  excluded_patterns.any (fun pattern => research matchAt pattern filename)

/-- Index of the last occurrence of a character in a list, if any. -/
def lastIdxOf (c : Char) : List Char → Option Nat
  | [] => none
  | x :: xs =>
    match lastIdxOf c xs with
    | some i => some (i + 1)
    | none => if x == c then some 0 else none

/-- Embedding of `os.path.splitext` on a bare file name: split at the last
dot, except that a name whose part before the last dot is all dots (for
example `.hidden`) does not split. -/
def splitext (s : String) : String × String :=
  match lastIdxOf '.' s.data with
  | none => (s, "")
  | some i =>
    if (s.data.take i).any (fun c => !(c == '.')) then
      (String.mk (s.data.take i), String.mk (s.data.drop i))
    else (s, "")

/-- Embedding of `str.lower()` (character-wise lowering). -/
def strLower (s : String) : String := String.mk (s.data.map Char.toLower)

/-- Embedding of `str.endswith(suffix)`. -/
def strEndsWith (s suffix : String) : Bool := suffix.data.isSuffixOf s.data

/-- The candidate file name `f"{base}_{counter}{extension}"` used by the
conflict-resolution loop. -/
def candName (base ext : String) (counter : Nat) : String :=
  base ++ "_" ++ Nat.repr counter ++ ext

/-- Number of entries in the file system, a bound on how many paths can
exist. -/
def fsSize (fs : FS) : Nat := fs.files.length + fs.dirs.length

/-- The conflict-resolution `while` loop of `organize_files` (lines
171-177): try `base_counter ext`, `base_(counter+1) ext`, … until a name is
free.  The structural `fuel` is chosen large enough in `resolveDest` that a
free name is always reached. -/
def findFree (fs : FS) (destDir : FPath) (base ext : String) : Nat → Nat → FPath
  | counter, 0 => destDir ++ [candName base ext counter]
  | counter, fuel + 1 =>
    let cand := destDir ++ [candName base ext counter]
    if fs.existsPath cand then findFree fs destDir base ext (counter + 1) fuel else cand

/-- The final destination of one transfer: the nominal destination
`destDir/filename` when free, otherwise the first free
`destDir/base_k.ext` with `k = 1, 2, …` (lines 167-180). -/
def resolveDest (fs : FS) (destDir : FPath) (filename : String) : FPath :=
  let nominal := destDir ++ [filename]
  if fs.existsPath nominal then
    let be := splitext filename
    findFree fs destDir be.1 be.2 1 (fsSize fs + 1)
  else nominal

/-- The classifier (lines 132-141): first category whose extension list
contains a suffix of the lowercased file name, else `"Others"`. -/
def classify (file_types : List (String × List String)) (filename : String) : String :=
  match file_types.find? (fun ft => ft.2.any (fun ext => strEndsWith (strLower filename) ext)) with
  | some ft => ft.1
  | none => "Others"

/-- Classification as the spec's sentence reads it, for comparison with
`classify`: first category whose extension set contains a case-insensitive
suffix match of the file name (both sides lowercased). -/
def specClassify (file_types : List (String × List String)) (filename : String) : String :=
  match file_types.find? (fun ft => ft.2.any (fun ext => strEndsWith (strLower filename) (strLower ext))) with
  | some ft => ft.1
  | none => "Others"

/-- Python dictionary update
`categories[folder] = categories.get(folder, 0) + 1`: increment in place if
the key is present, else append it with count 1. -/
def bump (m : List (String × Nat)) (k : String) : List (String × Nat) :=
  if m.any (fun e => e.1 == k) then
    m.map (fun e => if e.1 == k then (e.1, e.2 + 1) else e)
  else m ++ [(k, 1)]

/-- The key set `self.file_types.keys() | {'Others'}` of the statistics
reset (line 97), as an ordered list. -/
def keysWithOthers (file_types : List (String × List String)) : List String :=
  let ks := file_types.map Prod.fst
  if "Others" ∈ ks then ks else ks ++ ["Others"]

/-- The statistics reset at the start of `organize_files` (lines 92-99). -/
def initStats (file_types : List (String × List String)) : Stats :=
  { total_files := 0
    organized_files := 0
    skipped_files := 0
    categories := (keysWithOthers file_types).map (fun k => (k, 0))
    total_size := 0 }

/-- Bump a statistics record's skipped-files counter. -/
def Stats.skip1 (s : Stats) : Stats :=
  { s with skipped_files := s.skipped_files + 1 }

/-- The body of the `for filename in os.listdir(directory)` loop of
`organize_files` (lines 113-197) for one directory entry. -/
def processFile (ctx : Ctx) (dir : FPath) (organize_by_date copy_instead_of_move : Bool)
    (st : Organizer × FS) (filename : String) : Organizer × FS :=
  let org := st.1
  let fs := st.2
  let file_path := dir ++ [filename]
  if fs.isdir file_path || filename == scriptName || strEndsWith filename ".log" then st
  else if is_excluded ctx.matchAt org.excluded_patterns filename then
    ({ org with stats := org.stats.skip1 }, fs)
  else
    let org1 := { org with stats :=
      { org.stats with
          total_files := org.stats.total_files + 1
          total_size := org.stats.total_size + fs.getsize file_path } }
    let destination_folder := classify org.file_types filename
    let dfs : FS × FPath :=
      if organize_by_date then
        let date_folder := dir ++ [destination_folder, ctx.dateOf file_path]
        (if fs.existsPath date_folder then fs else fs.makedirs date_folder, date_folder)
      else (fs, dir ++ [destination_folder])
    let fs1 := dfs.1
    let destination_path := resolveDest fs1 dfs.2 filename
    if file_path ∈ ctx.failing then
      ({ org1 with stats := org1.stats.skip1 }, fs1)
    else
      let fs2 := if copy_instead_of_move then fs1.copy2 file_path destination_path
                 else fs1.move file_path destination_path
      let op : Operation :=
        ⟨if copy_instead_of_move then OpKind.copy else OpKind.move, file_path, destination_path⟩
      ({ org1 with
          operation_history := org1.operation_history ++ [op]
          stats :=
            { org1.stats with
                organized_files := org1.stats.organized_files + 1
                categories := bump org1.stats.categories destination_folder } }, fs2)

/-- The folder-creation phase of `organize_files` (lines 101-110): one
folder per category if missing, then the `"Others"` folder if missing. -/
def setupFS (org : Organizer) (fs : FS) (dir : FPath) : FS :=
  let fs0 := org.file_types.foldl (fun f ft =>
    let p := dir ++ [ft.1]
    if f.existsPath p then f else f.makedirs p) fs
  if fs0.existsPath (dir ++ ["Others"]) then fs0 else fs0.makedirs (dir ++ ["Others"])

/-- Embedding of `FileOrganizer.organize_files` (lines 88-199): reset the
statistics, create one folder per category plus `"Others"`, then run the
per-entry loop over the directory listing. -/
def organize_files (ctx : Ctx) (org : Organizer) (fs : FS) (dir : FPath)
    (organize_by_date copy_instead_of_move : Bool) : Organizer × FS :=
  let org0 : Organizer := { org with stats := initStats org.file_types }
  let fs1 := setupFS org fs dir
  (fs1.listdir dir).foldl (processFile ctx dir organize_by_date copy_instead_of_move) (org0, fs1)

/-- Embedding of `FileOrganizer.undo_last_operation` (lines 205-229):
returns the updated organizer and file system together with the boolean
result. -/
def undo_last_operation (org : Organizer) (fs : FS) : (Organizer × FS) × Bool :=
  match org.operation_history.getLast? with
  | none => ((org, fs), false)
  | some op =>
    let org1 : Organizer := { org with operation_history := org.operation_history.dropLast }
    match op.kind with
    | OpKind.move =>
      if fs.existsPath op.destination then ((org1, fs.move op.destination op.source), true)
      else ((org1, fs), false)
    | OpKind.copy =>
      if fs.existsPath op.destination then ((org1, fs.remove op.destination), true)
      else ((org1, fs), false)

/-- Iterated calls to `undo_last_operation` (`undoIter (n+1)` performs one
more call after `undoIter n`). -/
def undoIter : Nat → Organizer × FS → Organizer × FS
  | 0, st => st
  | n + 1, st =>
    let st1 := undoIter n st
    (undo_last_operation st1.1 st1.2).1

/-- Embedding of `FileOrganizer.add_exclude_pattern` (lines 231-242):
`compiles` abstracts `re.compile` succeeding; the middle component is the
configuration written to disk by `save_config` (`none` when nothing was
written). -/
def add_exclude_pattern (compiles : String → Bool) (org : Organizer)
    (pattern : String) : Organizer × Option Config × Bool :=
  if compiles pattern then
    let org1 : Organizer := { org with excluded_patterns := org.excluded_patterns ++ [pattern] }
    (org1, some ⟨org1.file_types, org1.excluded_patterns⟩, true)
  else (org, none, false)

/-- Embedding of `FileOrganizer.format_size` (lines 259-264), with the
`f"{v:.2f} {unit}"` rendering abstracted to the pair (value, unit); the
loop returns `none` only if it exhausts the unit list, which the `GB`
escape prevents. -/
def format_size_loop : ℚ → List String → Option (ℚ × String)
  | _, [] => none
  | s, u :: rest => if s < 1024 || u == "GB" then some (s, u) else format_size_loop (s / 1024) rest

/-- The byte-size formatter over the unit list `['B', 'KB', 'MB', 'GB']`. -/
def format_size (size_bytes : ℚ) : Option (ℚ × String) :=
  format_size_loop size_bytes ["B", "KB", "MB", "GB"]

/-- Embedding of `FileOrganizer.get_summary` (lines 244-257): the data the
summary string renders — the three counters, the formatted total size, and
the categories with a positive count. -/
structure Summary where
  total_files : Nat
  organized_files : Nat
  skipped_files : Nat
  size_rendered : Option (ℚ × String)
  by_category : List (String × Nat)
deriving DecidableEq

/-- The summary of the last run. -/
def get_summary (org : Organizer) : Summary :=
  { total_files := org.stats.total_files
    organized_files := org.stats.organized_files
    skipped_files := org.stats.skipped_files
    size_rendered := format_size (org.stats.total_size : ℚ)
    by_category := org.stats.categories.filter (fun e => decide (0 < e.2)) }

/-- Concrete environment for concrete runs: no pattern ever matches, a
fixed date bucket, no failing transfers. -/
def exCtx : Ctx := ⟨fun _ _ => false, fun _ => "2025-03-14", []⟩

/-- Concrete organizer with a small category table and empty history. -/
def exOrg : Organizer :=
  { file_types := [("Photos", [".jpg"]), ("Documents", [".txt"])]
    excluded_patterns := []
    operation_history := []
    stats := ⟨0, 0, 0, [], 0⟩ }

/-- Concrete directory `d` holding two files, for the round-trip
counterexample. -/
def exFS : FS := ⟨[(["d", "a.jpg"], "A"), (["d", "b.txt"], "B")], [["d"]]⟩

/-- Organizer whose statistics are non-zero, to observe the unconditional
statistics reset. -/
def exOrg6 : Organizer := { exOrg with stats := ⟨5, 4, 1, [("Photos", 3)], 7⟩ }

/-- Empty file system: the target directory does not exist. -/
def exFS6 : FS := ⟨[], []⟩

/-- Destination directory already holding `report.pdf`, for the
conflict-resolution witness. -/
def exFS1 : FS := ⟨[(["dst", "report.pdf"], "R")], [["dst"]]⟩

/-- One recorded move whose destination exists, for the undo witness. -/
def exOrg2 : Organizer :=
  { exOrg with operation_history := [⟨OpKind.move, ["d", "a.jpg"], ["d", "Photos", "a.jpg"]⟩] }

/-- File system after the move recorded in `exOrg2`. -/
def exFS2 : FS := ⟨[(["d", "Photos", "a.jpg"], "A")], [["d"], ["d", "Photos"]]⟩

/-! ### Decimal numerals are injective

`Nat.repr` (the `f"{counter}"` rendering of the conflict counter) is
injective; proved by relating the kernel's `Nat.toDigitsCore` to
`Nat.digits`. -/

lemma toDigitsCore_eq_digits : ∀ (n : Nat), ∀ (fuel : Nat) (ds : List Char), n ≠ 0 → n ≤ fuel →
    Nat.toDigitsCore 10 fuel n ds = ((Nat.digits 10 n).map Nat.digitChar).reverse ++ ds := by
  intro n
  induction n using Nat.strong_induction_on with
  | _ n ih =>
    intro fuel ds hn hfuel
    match fuel with
    | 0 => omega
    | f + 1 =>
      rw [Nat.digits_def' (by norm_num) (Nat.pos_of_ne_zero hn)]
      simp only [Nat.toDigitsCore, List.map_cons, List.reverse_cons]
      by_cases h10 : n / 10 = 0
      · simp [h10, Nat.digits_zero]
      · rw [if_neg h10]
        rw [ih (n / 10) (Nat.div_lt_self (Nat.pos_of_ne_zero hn) (by norm_num)) f
          (Nat.digitChar (n % 10) :: ds) h10 (by omega)]
        simp

lemma digitChar_inj10 : ∀ a, a < 10 → ∀ b, b < 10 → Nat.digitChar a = Nat.digitChar b → a = b := by
  decide

lemma map_digitChar_inj : ∀ (l1 l2 : List Nat), (∀ x ∈ l1, x < 10) → (∀ x ∈ l2, x < 10) →
    l1.map Nat.digitChar = l2.map Nat.digitChar → l1 = l2 := by
  intro l1
  induction l1 with
  | nil => intro l2 _ _ h; cases l2 <;> simp_all
  | cons a t ih =>
    intro l2 h1 h2 h
    cases l2 with
    | nil => simp_all
    | cons b t2 =>
      simp only [List.map_cons, List.cons.injEq] at h
      have ha := digitChar_inj10 a (h1 a (by simp)) b (h2 b (by simp)) h.1
      have := ih t2 (fun x hx => h1 x (by simp [hx])) (fun x hx => h2 x (by simp [hx])) h.2
      simp [ha, this]

lemma repr_eq_of_ne_zero (n : Nat) (h : n ≠ 0) :
    Nat.repr n = String.mk (((Nat.digits 10 n).map Nat.digitChar).reverse) := by
  show (Nat.toDigits 10 n).asString = _
  rw [Nat.toDigits, toDigitsCore_eq_digits n (n + 1) [] h (by omega)]
  simp [List.asString]

lemma Nat_repr_injective : Function.Injective Nat.repr := by
  intro m n h
  rcases Nat.eq_zero_or_pos m with hm | hm
  · rcases Nat.eq_zero_or_pos n with hn | hn
    · omega
    · exfalso
      subst hm
      rw [repr_eq_of_ne_zero n (by omega)] at h
      have h2 : Nat.repr 0 = String.mk ['0'] := rfl
      rw [h2] at h
      have hd : ['0'] = ((Nat.digits 10 n).map Nat.digitChar).reverse := by
        have := congrArg String.data h; simpa using this
      have hmap : (Nat.digits 10 n).map Nat.digitChar = [Nat.digitChar 0] := by
        have := congrArg List.reverse hd
        simpa using this.symm
      have h0 : Nat.digits 10 n = [0] := by
        apply map_digitChar_inj _ [0]
        · intro x hx; exact Nat.digits_lt_base (by norm_num) hx
        · intro x hx; simp at hx; omega
        · simpa using hmap
      have := Nat.ofDigits_digits 10 n
      rw [h0] at this
      simp [Nat.ofDigits] at this
      omega
  · rcases Nat.eq_zero_or_pos n with hn | hn
    · exfalso
      subst hn
      rw [repr_eq_of_ne_zero m (by omega)] at h
      have h2 : Nat.repr 0 = String.mk ['0'] := rfl
      rw [h2] at h
      have hd : ((Nat.digits 10 m).map Nat.digitChar).reverse = ['0'] := by
        have := congrArg String.data h; simpa using this
      have hmap : (Nat.digits 10 m).map Nat.digitChar = [Nat.digitChar 0] := by
        have := congrArg List.reverse hd
        simpa using this
      have h0 : Nat.digits 10 m = [0] := by
        apply map_digitChar_inj _ [0]
        · intro x hx; exact Nat.digits_lt_base (by norm_num) hx
        · intro x hx; simp at hx; omega
        · simpa using hmap
      have := Nat.ofDigits_digits 10 m
      rw [h0] at this
      simp [Nat.ofDigits] at this
      omega
    · rw [repr_eq_of_ne_zero m (by omega), repr_eq_of_ne_zero n (by omega)] at h
      have hd := congrArg String.data h
      simp only at hd
      have hmap : (Nat.digits 10 m).map Nat.digitChar = (Nat.digits 10 n).map Nat.digitChar := by
        have := congrArg List.reverse hd
        simpa using this
      have hdig : Nat.digits 10 m = Nat.digits 10 n := by
        apply map_digitChar_inj _ _ _ _ hmap
        · intro x hx; exact Nat.digits_lt_base (by norm_num) hx
        · intro x hx; exact Nat.digits_lt_base (by norm_num) hx
      have h1 := Nat.ofDigits_digits 10 m
      have h2 := Nat.ofDigits_digits 10 n
      rw [hdig] at h1
      rw [h2] at h1
      omega

lemma String_eq_of_data_eq {s t : String} (h : s.data = t.data) : s = t := by
  cases s
  cases t
  exact congrArg String.mk h

lemma candName_injective (base ext : String) : Function.Injective (candName base ext) := by
  intro a b h
  apply Nat_repr_injective
  unfold candName at h
  have hd := congrArg String.data h
  simp only [String.data_append, List.append_assoc] at hd
  have h1 := List.append_cancel_left hd
  have h2 := List.append_cancel_left h1
  have h3 := List.append_cancel_right h2
  exact String_eq_of_data_eq h3

lemma existsPath_mem (fs : FS) (p : FPath) :
    fs.existsPath p = true ↔ p ∈ fs.files.map Prod.fst ∨ p ∈ fs.dirs := by
  simp only [FS.existsPath, Bool.or_eq_true, List.any_eq_true, beq_iff_eq, List.mem_map]
  constructor
  · rintro (⟨e, he, rfl⟩ | ⟨d, hd, rfl⟩)
    · exact Or.inl ⟨e, he, rfl⟩
    · exact Or.inr hd
  · rintro (⟨e, he, rfl⟩ | hd)
    · exact Or.inl ⟨e, he, rfl⟩
    · exact Or.inr ⟨p, hd, rfl⟩

lemma exists_free_cand (fs : FS) (destDir : FPath) (base ext : String) :
    ∃ i, i < fsSize fs + 1 ∧
      fs.existsPath (destDir ++ [candName base ext (1 + i)]) = false := by
  by_contra hc
  push_neg at hc
  simp only [Bool.not_eq_false] at hc
  have hinj : Function.Injective (fun i => destDir ++ [candName base ext (1 + i)]) := by
    intro x y hxy
    simp only [List.append_cancel_left_eq, List.cons.injEq, and_true] at hxy
    have := candName_injective base ext hxy
    omega
  have hnd : ((List.range (fsSize fs + 1)).map
      (fun i => destDir ++ [candName base ext (1 + i)])).Nodup :=
    (List.nodup_range _).map hinj
  have hsub : ∀ q ∈ (List.range (fsSize fs + 1)).map
      (fun i => destDir ++ [candName base ext (1 + i)]),
      q ∈ fs.files.map Prod.fst ++ fs.dirs := by
    intro q hq
    obtain ⟨i, hi, rfl⟩ := List.mem_map.1 hq
    have := hc i (List.mem_range.1 hi)
    rcases (existsPath_mem fs _).1 this with h | h
    · exact List.mem_append.2 (Or.inl h)
    · exact List.mem_append.2 (Or.inr h)
  have h1 : ((List.range (fsSize fs + 1)).map
      (fun i => destDir ++ [candName base ext (1 + i)])).toFinset.card = fsSize fs + 1 := by
    rw [List.toFinset_card_of_nodup hnd]
    simp
  have h2 := Finset.card_le_card (fun q hq =>
    List.mem_toFinset.2 (hsub q (List.mem_toFinset.1 hq)))
  have h3 := List.toFinset_card_le (fs.files.map Prod.fst ++ fs.dirs)
  rw [h1] at h2
  simp only [List.length_append, List.length_map] at h3
  have : fsSize fs + 1 ≤ fsSize fs := by
    calc fsSize fs + 1 ≤ (fs.files.map Prod.fst ++ fs.dirs).toFinset.card := h2
      _ ≤ fs.files.length + fs.dirs.length := h3
      _ = fsSize fs := rfl
  omega

lemma findFree_spec (fs : FS) (destDir : FPath) (base ext : String) :
    ∀ (fuel counter : Nat),
      (∃ i, i < fuel ∧ fs.existsPath (destDir ++ [candName base ext (counter + i)]) = false) →
      ∃ k, findFree fs destDir base ext counter fuel = destDir ++ [candName base ext k] ∧
        counter ≤ k ∧ fs.existsPath (destDir ++ [candName base ext k]) = false ∧
        ∀ j, counter ≤ j → j < k → fs.existsPath (destDir ++ [candName base ext j]) = true := by
  intro fuel
  induction fuel with
  | zero =>
    intro counter h
    obtain ⟨i, hi, _⟩ := h
    omega
  | succ f ih =>
    intro counter h
    by_cases hex : fs.existsPath (destDir ++ [candName base ext counter]) = true
    · have h' : ∃ i, i < f ∧
          fs.existsPath (destDir ++ [candName base ext (counter + 1 + i)]) = false := by
        obtain ⟨i, hi, hfree⟩ := h
        match i with
        | 0 =>
          rw [Nat.add_zero] at hfree
          rw [hfree] at hex
          cases hex
        | i + 1 =>
          exact ⟨i, by omega, by rwa [show counter + 1 + i = counter + (i + 1) by omega]⟩
      obtain ⟨k, hk, hle, hfree, hmin⟩ := ih (counter + 1) h'
      refine ⟨k, ?_, by omega, hfree, ?_⟩
      · simp only [findFree, hex, if_true]
        exact hk
      · intro j hj1 hj2
        rcases Nat.eq_or_lt_of_le hj1 with rfl | hlt
        · exact hex
        · exact hmin j (by omega) hj2
    · have hfalse : fs.existsPath (destDir ++ [candName base ext counter]) = false := by
        revert hex
        cases fs.existsPath (destDir ++ [candName base ext counter]) <;> simp
      refine ⟨counter, ?_, Nat.le_refl _, hfalse, fun j h1 h2 => by omega⟩
      simp only [findFree, hfalse]
      simp

lemma resolveDest_free (fs : FS) (destDir : FPath) (filename : String) :
    fs.existsPath (resolveDest fs destDir filename) = false := by
  unfold resolveDest
  by_cases h : fs.existsPath (destDir ++ [filename]) = true
  · simp only [h, if_true]
    obtain ⟨i, hi, hfree⟩ :=
      exists_free_cand fs destDir (splitext filename).1 (splitext filename).2
    obtain ⟨k, hk, _, hfr, _⟩ := findFree_spec fs destDir (splitext filename).1
      (splitext filename).2 (fsSize fs + 1) 1 ⟨i, hi, hfree⟩
    rw [hk]
    exact hfr
  · have hf : fs.existsPath (destDir ++ [filename]) = false := by
      revert h
      cases fs.existsPath (destDir ++ [filename]) <;> simp
    simp only [hf]
    simp [hf]

lemma resolveDest_conflict (fs : FS) (destDir : FPath) (filename : String)
    (h : fs.existsPath (destDir ++ [filename]) = true) :
    ∃ k, 1 ≤ k ∧
      resolveDest fs destDir filename =
        destDir ++ [candName (splitext filename).1 (splitext filename).2 k] ∧
      fs.existsPath (destDir ++ [candName (splitext filename).1 (splitext filename).2 k])
        = false ∧
      ∀ j, 1 ≤ j → j < k →
        fs.existsPath (destDir ++ [candName (splitext filename).1 (splitext filename).2 j])
          = true := by
  obtain ⟨i, hi, hfree⟩ :=
    exists_free_cand fs destDir (splitext filename).1 (splitext filename).2
  obtain ⟨k, hk, hle, hfr, hmin⟩ := findFree_spec fs destDir (splitext filename).1
    (splitext filename).2 (fsSize fs + 1) 1 ⟨i, hi, hfree⟩
  refine ⟨k, hle, ?_, hfr, hmin⟩
  unfold resolveDest
  simp only [h, if_true]
  exact hk

lemma fileContent_eq_of_files_eq {fs1 fs2 : FS} (h : fs1.files = fs2.files) (p : FPath) :
    fs1.fileContent p = fs2.fileContent p := by
  simp [FS.fileContent, h]

lemma existsPath_of_fileContent_some {fs : FS} {p : FPath} {c : String}
    (h : fs.fileContent p = some c) : fs.existsPath p = true := by
  simp only [FS.fileContent, Option.map_eq_some'] at h
  obtain ⟨e, he, _⟩ := h
  have hmem := List.mem_of_find?_eq_some he
  have hp := List.find?_some he
  simp only [FS.existsPath, Bool.or_eq_true, List.any_eq_true]
  exact Or.inl ⟨e, hmem, hp⟩

lemma fileContent_none_of_not_existsPath {fs : FS} {p : FPath}
    (h : fs.existsPath p = false) : fs.fileContent p = none := by
  cases hc : fs.fileContent p with
  | none => rfl
  | some c => rw [existsPath_of_fileContent_some hc] at h; cases h

lemma find?_filter_key (l : List (FPath × String)) (q p : FPath) :
    (l.filter (fun e => !(e.1 == q))).find? (fun e => e.1 == p) =
      if p = q then none else l.find? (fun e => e.1 == p) := by
  induction l with
  | nil => simp
  | cons a t ih =>
    by_cases haq : a.1 = q
    · have hfil : (a :: t).filter (fun e => !(e.1 == q)) = t.filter (fun e => !(e.1 == q)) := by
        simp [List.filter_cons, haq]
      rw [hfil, ih]
      by_cases hpq : p = q
      · simp [hpq]
      · have hap : (a.1 == p) = false := by
          simp only [beq_eq_false_iff_ne, ne_eq, haq]
          exact fun h => hpq h.symm
        rw [if_neg hpq, if_neg hpq, List.find?_cons, hap]
    · have hfil : (a :: t).filter (fun e => !(e.1 == q)) = a :: t.filter (fun e => !(e.1 == q)) := by
        simp [List.filter_cons, haq]
      rw [hfil]
      by_cases hap : a.1 = p
      · have hpq : ¬ p = q := fun h => haq (by rw [hap, h])
        rw [if_neg hpq, List.find?_cons, List.find?_cons]
        simp [hap]
      · have hb : (a.1 == p) = false := by simp [hap]
        rw [List.find?_cons, hb, ih]
        by_cases hpq : p = q
        · simp [hpq]
        · rw [if_neg hpq, if_neg hpq, List.find?_cons, hb]

lemma remove_fileContent (fs : FS) (p q : FPath) :
    (fs.remove p).fileContent q = if q = p then none else fs.fileContent q := by
  simp only [FS.remove, FS.fileContent, find?_filter_key]
  by_cases h : q = p <;> simp [h]

lemma find?_append_key (l : List (FPath × String)) (d : FPath) (c : String) (p : FPath) :
    (l ++ [(d, c)]).find? (fun e => e.1 == p) =
      (l.find? (fun e => e.1 == p)).or (if p = d then some (d, c) else none) := by
  rw [List.find?_append]
  congr 1
  by_cases h : p = d
  · simp [List.find?, h]
  · have : (d == p) = false := by
      simp only [beq_eq_false_iff_ne, ne_eq]
      exact fun hd => h hd.symm
    simp [List.find?, this, h]

lemma move_fileContent {fs : FS} {src dst : FPath} {c : String}
    (hsrc : fs.fileContent src = some c) (hdst : fs.fileContent dst = none) (p : FPath) :
    (fs.move src dst).fileContent p =
      if p = dst then some c else if p = src then none else fs.fileContent p := by
  have hne : src ≠ dst := by
    intro h
    rw [h, hdst] at hsrc
    cases hsrc
  have hmv : fs.move src dst =
      { fs with files := fs.files.filter (fun e => !(e.1 == src)) ++ [(dst, c)] } := by
    simp only [FS.move, hsrc]
  rw [hmv]
  show ((fs.files.filter (fun e => !(e.1 == src)) ++ [(dst, c)]).find?
      (fun e => e.1 == p)).map Prod.snd = _
  rw [find?_append_key, find?_filter_key]
  by_cases hpd : p = dst
  · subst hpd
    have hfind : fs.files.find? (fun e => e.1 == p) = none := by
      have h2 : Option.map Prod.snd (fs.files.find? (fun e => e.1 == p)) = none := hdst
      cases hf : fs.files.find? (fun e => e.1 == p)
      · rfl
      · rw [hf] at h2; cases h2
    have hps : ¬ p = src := fun h => hne (h.symm)
    simp [hps, hfind]
  · by_cases hps : p = src
    · simp [hps, hpd]
    · simp only [if_neg hps, if_neg hpd, Option.or_none, FS.fileContent]

lemma move_of_fileContent_none {fs : FS} {src : FPath} (dst : FPath)
    (h : fs.fileContent src = none) : fs.move src dst = fs := by
  simp [FS.move, h]

lemma copy2_fileContent_preserved {fs : FS} {p : FPath} {c : String} (src dst : FPath)
    (h : fs.fileContent p = some c) : (fs.copy2 src dst).fileContent p = some c := by
  cases hs : fs.fileContent src with
  | none => simp [FS.copy2, hs, h]
  | some cs =>
    have hcp : fs.copy2 src dst = { fs with files := fs.files ++ [(dst, cs)] } := by
      simp only [FS.copy2, hs]
    rw [hcp]
    show ((fs.files ++ [(dst, cs)]).find? (fun e => e.1 == p)).map Prod.snd = some c
    rw [find?_append_key]
    simp only [FS.fileContent] at h
    cases hf : fs.files.find? (fun e => e.1 == p) with
    | none => rw [hf] at h; cases h
    | some e =>
      rw [hf] at h
      simpa using h

lemma move_dirs (fs : FS) (src dst : FPath) : (fs.move src dst).dirs = fs.dirs := by
  cases h : fs.fileContent src <;> simp [FS.move, h]

lemma remove_dirs (fs : FS) (p : FPath) : (fs.remove p).dirs = fs.dirs := rfl

lemma copy2_dirs (fs : FS) (src dst : FPath) : (fs.copy2 src dst).dirs = fs.dirs := by
  cases h : fs.fileContent src <;> simp [FS.copy2, h]

/-- C1: for every transfer, if a file (or directory) already exists at the
nominal destination, the final destination appends an integer suffix before
the original extension, taking the smallest counter whose name is free
(every smaller counter names an occupied path); the chosen destination is
always free, so no file that already exists at a destination is ever
overwritten by the move or copy — every other file's content is intact. -/
theorem C1_conflict_resolution_safe (fs : FS) (destDir : FPath) (filename : String) :
    fs.existsPath (resolveDest fs destDir filename) = false ∧
    (fs.existsPath (destDir ++ [filename]) = true →
      ∃ k, 1 ≤ k ∧
        resolveDest fs destDir filename =
          destDir ++ [candName (splitext filename).1 (splitext filename).2 k] ∧
        ∀ j, 1 ≤ j → j < k →
          fs.existsPath
            (destDir ++ [candName (splitext filename).1 (splitext filename).2 j]) = true) ∧
    (∀ src p c, fs.fileContent p = some c → p ≠ src →
      (fs.move src (resolveDest fs destDir filename)).fileContent p = some c) ∧
    (∀ src p c, fs.fileContent p = some c →
      (fs.copy2 src (resolveDest fs destDir filename)).fileContent p = some c) := by
  have hfree := resolveDest_free fs destDir filename
  have hdnone : fs.fileContent (resolveDest fs destDir filename) = none :=
    fileContent_none_of_not_existsPath hfree
  refine ⟨hfree, ?_, ?_, ?_⟩
  · intro h
    obtain ⟨k, hk1, hk2, _, hk4⟩ := resolveDest_conflict fs destDir filename h
    exact ⟨k, hk1, hk2, hk4⟩
  · intro src p c hp hps
    cases hs : fs.fileContent src with
    | none => rw [move_of_fileContent_none _ hs]; exact hp
    | some cs =>
      rw [move_fileContent hs hdnone p]
      have hpd : ¬ p = resolveDest fs destDir filename := by
        intro hh
        rw [hh, hdnone] at hp
        cases hp
      rw [if_neg hpd, if_neg hps]
      exact hp
  · intro src p c hp
    exact copy2_fileContent_preserved src _ hp

/-- Witness for C1 at a destination directory already holding
`report.pdf`: the conflict branch applies and the suffixed name is
produced. -/
theorem C1_conflict_resolution_safe_witness :
    exFS1.existsPath (["dst"] ++ ["report.pdf"]) = true ∧
    (∃ k, 1 ≤ k ∧
      resolveDest exFS1 ["dst"] "report.pdf" =
        ["dst"] ++ [candName (splitext "report.pdf").1 (splitext "report.pdf").2 k] ∧
      ∀ j, 1 ≤ j → j < k →
        exFS1.existsPath
          (["dst"] ++ [candName (splitext "report.pdf").1 (splitext "report.pdf").2 j])
          = true) ∧
    (exFS1.move ["src", "report.pdf"]
        (resolveDest exFS1 ["dst"] "report.pdf")).fileContent ["dst", "report.pdf"]
      = some "R" :=
  ⟨by decide,
   (C1_conflict_resolution_safe exFS1 ["dst"] "report.pdf").2.1 (by decide),
   (C1_conflict_resolution_safe exFS1 ["dst"] "report.pdf").2.2.1
     ["src", "report.pdf"] ["dst", "report.pdf"] "R" (by decide) (by decide)⟩

/-- C2: `undo_last_operation` returns false and changes nothing on an empty
history; otherwise it pops exactly the last record and, for a move whose
destination still exists, moves the file back and returns true; for a move
whose destination is gone, returns false with the record discarded; for a
copy, deletes the destination and returns true when it exists, else false;
and after exactly one recorded operation two successive calls return true
then false. -/
theorem C2_undo_last_operation (org : Organizer) (fs : FS) :
    (org.operation_history = [] → undo_last_operation org fs = ((org, fs), false)) ∧
    (∀ H op, org.operation_history = H ++ [op] →
      (undo_last_operation org fs).1.1.operation_history = H ∧
      (op.kind = OpKind.move → fs.existsPath op.destination = true →
        undo_last_operation org fs =
          (({ org with operation_history := H }, fs.move op.destination op.source), true)) ∧
      (op.kind = OpKind.move → fs.existsPath op.destination = false →
        undo_last_operation org fs =
          (({ org with operation_history := H }, fs), false)) ∧
      (op.kind = OpKind.copy → fs.existsPath op.destination = true →
        undo_last_operation org fs =
          (({ org with operation_history := H }, fs.remove op.destination), true)) ∧
      (op.kind = OpKind.copy → fs.existsPath op.destination = false →
        undo_last_operation org fs =
          (({ org with operation_history := H }, fs), false))) ∧
    (∀ op, org.operation_history = [op] → fs.existsPath op.destination = true →
      (undo_last_operation org fs).2 = true ∧
      (undo_last_operation (undo_last_operation org fs).1.1
        (undo_last_operation org fs).1.2).2 = false) := by
  refine ⟨?_, ?_, ?_⟩
  · intro h
    simp [undo_last_operation, h]
  · intro H op h
    have hlast : org.operation_history.getLast? = some op := by
      rw [h]; exact List.getLast?_concat H
    have hdrop : org.operation_history.dropLast = H := by
      rw [h]; exact List.dropLast_concat
    cases hk : op.kind <;>
      simp only [undo_last_operation, hlast, hk, hdrop] <;>
      cases hex : fs.existsPath op.destination <;> simp
  · intro op h hex
    have hlast : org.operation_history.getLast? = some op := by
      rw [h]; rfl
    have hdrop : org.operation_history.dropLast = [] := by rw [h]; rfl
    have h1 : (undo_last_operation org fs).1.1.operation_history = [] := by
      cases hk : op.kind <;>
        simp only [undo_last_operation, hlast, hk, hdrop] <;>
        cases hex2 : fs.existsPath op.destination <;> simp
    constructor
    · cases hk : op.kind <;>
        simp only [undo_last_operation, hlast, hk, hdrop, hex] <;> simp
    · generalize hA : (undo_last_operation org fs).1.1 = A at h1
      generalize hB : (undo_last_operation org fs).1.2 = B
      simp [undo_last_operation, h1]

/-- Witness for C2: one recorded move whose destination exists — the first
undo returns true, the second false. -/
theorem C2_undo_last_operation_witness :
    (undo_last_operation exOrg2 exFS2).2 = true ∧
    (undo_last_operation (undo_last_operation exOrg2 exFS2).1.1
      (undo_last_operation exOrg2 exFS2).1.2).2 = false :=
  (C2_undo_last_operation exOrg2 exFS2).2.2
    ⟨OpKind.move, ["d", "a.jpg"], ["d", "Photos", "a.jpg"]⟩ (by decide) (by decide)

lemma find?_congr_mem {α : Type} (l : List α) (p q : α → Bool)
    (h : ∀ a ∈ l, p a = q a) : l.find? p = l.find? q := by
  induction l with
  | nil => rfl
  | cons a t ih =>
    rw [List.find?_cons, List.find?_cons, h a (by simp)]
    cases q a
    · exact ih (fun b hb => h b (by simp [hb]))
    · rfl

lemma any_congr_mem {α : Type} (l : List α) (p q : α → Bool)
    (h : ∀ a ∈ l, p a = q a) : l.any p = l.any q := by
  induction l with
  | nil => rfl
  | cons a t ih =>
    simp only [List.any_cons, h a (by simp)]
    rw [ih (fun b hb => h b (by simp [hb]))]

/-- C4 counterexample: with a rule set storing the upper-case extension
`.PDF`, the file `a.pdf` has a case-insensitive suffix match in the first
category, yet classification returns `"Others"` — the code lowercases only
the file name, never the stored extension. -/
theorem C4_classify_counterexample :
    classify [("Docs", [".PDF"])] "a.pdf" = "Others" ∧
    specClassify [("Docs", [".PDF"])] "a.pdf" = "Docs" ∧
    strEndsWith (strLower "a.pdf") (strLower ".PDF") = true := by
  refine ⟨?_, ?_, ?_⟩ <;> decide

/-- C4 (amended): classification is a deterministic pure function that
iterates the categories in stable insertion order and returns the first
category one of whose stored extensions is a suffix of the lowercased file
name (the stored extension is compared verbatim), `"Others"` when no
extension matches; the result is always a configured category or
`"Others"`; and whenever every stored extension is lowercase — the data
model's invariant — this agrees with the spec's fully case-insensitive
suffix match. -/
theorem C4_classify (R : List (String × List String)) (f : String) :
    (classify R f = "Others" ∨ classify R f ∈ R.map Prod.fst) ∧
    (∀ R1 cat exts R2, R = R1 ++ (cat, exts) :: R2 →
      (∀ ft ∈ R1, ∀ ext ∈ ft.2, strEndsWith (strLower f) ext = false) →
      (∃ ext ∈ exts, strEndsWith (strLower f) ext = true) →
      classify R f = cat) ∧
    ((∀ ft ∈ R, ∀ ext ∈ ft.2, strEndsWith (strLower f) ext = false) →
      classify R f = "Others") ∧
    ((∀ ft ∈ R, ∀ ext ∈ ft.2, strLower ext = ext) →
      classify R f = specClassify R f) := by
  refine ⟨?_, ?_, ?_, ?_⟩
  · cases hf : R.find? (fun ft => ft.2.any (fun ext => strEndsWith (strLower f) ext)) with
    | none => left; simp [classify, hf]
    | some ft =>
      right
      have := List.mem_of_find?_eq_some hf
      simp only [classify, hf]
      exact List.mem_map.2 ⟨ft, this, rfl⟩
  · intro R1 cat exts R2 hR hpre hmatch
    have h1 : R1.find? (fun ft => ft.2.any (fun ext => strEndsWith (strLower f) ext)) = none := by
      rw [List.find?_eq_none]
      intro ft hft
      simp only [Bool.not_eq_true, List.any_eq_false]
      intro ext hext
      simp [hpre ft hft ext hext]
    have h2 : (exts.any (fun ext => strEndsWith (strLower f) ext)) = true := by
      rw [List.any_eq_true]
      obtain ⟨ext, hm, he⟩ := hmatch
      exact ⟨ext, hm, he⟩
    rw [classify, hR, List.find?_append, h1, Option.none_or, List.find?_cons]
    simp only [h2]
  · intro h
    have h1 : R.find? (fun ft => ft.2.any (fun ext => strEndsWith (strLower f) ext)) = none := by
      rw [List.find?_eq_none]
      intro ft hft
      simp only [Bool.not_eq_true, List.any_eq_false]
      intro ext hext
      simp [h ft hft ext hext]
    simp [classify, h1]
  · intro h
    have : R.find? (fun ft => ft.2.any (fun ext => strEndsWith (strLower f) ext)) =
        R.find? (fun ft => ft.2.any (fun ext => strEndsWith (strLower f) (strLower ext))) := by
      apply find?_congr_mem
      intro ft hft
      apply any_congr_mem
      intro ext hext
      rw [h ft hft ext hext]
    rw [classify, specClassify, this]

/-- Witness for C4: on a lowercase rule set the first-match rule fires and
agrees with the case-insensitive reading. -/
theorem C4_classify_witness :
    classify [("Photos", [".jpg"])] "x.JPG" =
      specClassify [("Photos", [".jpg"])] "x.JPG" ∧
    classify [("Photos", [".jpg"])] "x.JPG" = "Photos" :=
  ⟨(C4_classify [("Photos", [".jpg"])] "x.JPG").2.2.2 (by decide),
   (C4_classify [("Photos", [".jpg"])] "x.JPG").2.1 [] "Photos" [".jpg"] [] rfl
     (by simp) ⟨".jpg", by simp, by decide⟩⟩

/-- C5: `is_excluded` returns true iff at least one configured pattern
matches somewhere within the file name (a search at any start position,
not a full match), and a candidate entry the filter matches is counted
only in `skipped_files` — `total_files`, `organized_files`,
`total_size` and the per-category counts are untouched, no operation is
recorded, and the file system (hence the file itself) is left as it was. -/
theorem C5_exclusion_filter (matchAt : String → List Char → Bool) :
    (∀ (patterns : List String) (f : String),
      is_excluded matchAt patterns f = true ↔
        ∃ p ∈ patterns, ∃ t ∈ f.data.tails, matchAt p t = true) ∧
    (∀ (ctx : Ctx) (dir : FPath) (byDate copyMode : Bool) (org : Organizer) (fs : FS)
        (x : String),
      (fs.isdir (dir ++ [x]) || x == scriptName || strEndsWith x ".log") = false →
      is_excluded ctx.matchAt org.excluded_patterns x = true →
      processFile ctx dir byDate copyMode (org, fs) x =
        ({ org with stats := org.stats.skip1 }, fs) ∧
      (processFile ctx dir byDate copyMode (org, fs) x).1.stats.skipped_files =
        org.stats.skipped_files + 1 ∧
      (processFile ctx dir byDate copyMode (org, fs) x).1.stats.total_files =
        org.stats.total_files ∧
      (processFile ctx dir byDate copyMode (org, fs) x).1.stats.organized_files =
        org.stats.organized_files ∧
      (processFile ctx dir byDate copyMode (org, fs) x).1.stats.total_size =
        org.stats.total_size ∧
      (processFile ctx dir byDate copyMode (org, fs) x).1.stats.categories =
        org.stats.categories ∧
      (processFile ctx dir byDate copyMode (org, fs) x).1.operation_history =
        org.operation_history ∧
      (processFile ctx dir byDate copyMode (org, fs) x).2 = fs) := by
  constructor
  · intro patterns f
    simp [is_excluded, research, List.any_eq_true]
  · intro ctx dir byDate copyMode org fs x h1 h2
    have hpf : processFile ctx dir byDate copyMode (org, fs) x =
        ({ org with stats := org.stats.skip1 }, fs) := by
      simp only [processFile, h1, h2]
      simp
    refine ⟨hpf, ?_, ?_, ?_, ?_, ?_, ?_, ?_⟩ <;> rw [hpf] <;> rfl

/-- Witness for C5: a pattern matching everywhere excludes `secret.txt`,
which is only counted as skipped. -/
theorem C5_exclusion_filter_witness :
    (is_excluded (fun _ _ => true) ["x"] "secret.txt" = true ↔
      ∃ p ∈ ["x"], ∃ t ∈ "secret.txt".data.tails, (fun (_ : String) (_ : List Char) => true) p t = true) ∧
    processFile ⟨fun _ _ => true, fun _ => "2025-03-14", []⟩ ["d"] false false
      ({ exOrg with excluded_patterns := ["x"] }, exFS6) "secret.txt" =
      ({ { exOrg with excluded_patterns := ["x"] } with
          stats := ({ exOrg with excluded_patterns := ["x"] } : Organizer).stats.skip1 }, exFS6) :=
  ⟨(C5_exclusion_filter (fun _ _ => true)).1 ["x"] "secret.txt",
   ((C5_exclusion_filter (fun _ _ => true)).2 ⟨fun _ _ => true, fun _ => "2025-03-14", []⟩
      ["d"] false false { exOrg with excluded_patterns := ["x"] } exFS6 "secret.txt"
      (by decide) (by decide)).1⟩

/-- C7: adding an exclusion pattern that does not compile returns false and
leaves the organizer — in particular the pattern set — completely
unchanged, and nothing is written to disk; a pattern that compiles is
appended to the end of the pattern set and the updated configuration is
persisted. -/
theorem C7_add_exclude_pattern (compiles : String → Bool) (org : Organizer)
    (pattern : String) :
    (compiles pattern = false →
      add_exclude_pattern compiles org pattern = (org, none, false)) ∧
    (compiles pattern = true →
      (add_exclude_pattern compiles org pattern).1 =
        { org with excluded_patterns := org.excluded_patterns ++ [pattern] } ∧
      (add_exclude_pattern compiles org pattern).2.1 =
        some ⟨org.file_types, org.excluded_patterns ++ [pattern]⟩ ∧
      (add_exclude_pattern compiles org pattern).2.2 = true) := by
  constructor
  · intro h
    simp [add_exclude_pattern, h]
  · intro h
    refine ⟨?_, ?_, ?_⟩ <;> simp [add_exclude_pattern, h]

/-- Witness for C7: a rejecting compiler leaves the state unchanged and a
succeeding one appends and persists. -/
theorem C7_add_exclude_pattern_witness :
    add_exclude_pattern (fun _ => false) exOrg "(" = (exOrg, none, false) ∧
    (add_exclude_pattern (fun _ => true) exOrg "^tmp").1 =
      { exOrg with excluded_patterns := exOrg.excluded_patterns ++ ["^tmp"] } ∧
    (add_exclude_pattern (fun _ => true) exOrg "^tmp").2.1 =
      some ⟨exOrg.file_types, exOrg.excluded_patterns ++ ["^tmp"]⟩ :=
  ⟨(C7_add_exclude_pattern (fun _ => false) exOrg "(").1 rfl,
   ((C7_add_exclude_pattern (fun _ => true) exOrg "^tmp").2 rfl).1,
   ((C7_add_exclude_pattern (fun _ => true) exOrg "^tmp").2 rfl).2.1⟩

/-- C9: a top-level entry that is a subdirectory, or is named like the
script itself, or ends in `.log`, is passed over before any statistics
field is touched: the whole organizer state and the file system are
returned unchanged — in contrast with an exclusion-pattern match, which
does increment `skipped_files`. -/
theorem C9_skip_dirs_script_log (ctx : Ctx) (dir : FPath) (byDate copyMode : Bool)
    (org : Organizer) (fs : FS) (x : String) :
    (fs.isdir (dir ++ [x]) = true ∨ x = scriptName ∨ strEndsWith x ".log" = true →
      processFile ctx dir byDate copyMode (org, fs) x = (org, fs)) ∧
    ((fs.isdir (dir ++ [x]) || x == scriptName || strEndsWith x ".log") = false →
      is_excluded ctx.matchAt org.excluded_patterns x = true →
      (processFile ctx dir byDate copyMode (org, fs) x).1.stats.skipped_files =
        org.stats.skipped_files + 1) := by
  constructor
  · intro h
    have hb : (fs.isdir (dir ++ [x]) || x == scriptName || strEndsWith x ".log") = true := by
      rcases h with h | h | h <;> simp [h]
    simp [processFile, hb]
  · intro h1 h2
    simp only [processFile, h1, h2]
    simp [Stats.skip1]

/-- Witness for C9: the log file `run.log` is skipped with no state change
at all. -/
theorem C9_skip_dirs_script_log_witness :
    processFile exCtx ["d"] false false (exOrg, exFS) "run.log" = (exOrg, exFS) :=
  (C9_skip_dirs_script_log exCtx ["d"] false false exOrg exFS "run.log").1
    (Or.inr (Or.inr (by decide)))

/-- C8: the size formatter steps through binary units at 1024 boundaries —
`B` below `1024`, `KB` below `1024²`, `MB` below `1024³`, and uncapped `GB`
(value `s / 1024³`) from `1024³` on — and always produces a result for a
non-negative size; `get_summary` renders exactly this formatting of the
run's `total_size`. -/
theorem C8_format_size (s : ℕ) (org : Organizer) :
    (∃ v u, format_size (s : ℚ) = some (v, u)) ∧
    ((s : ℚ) < 1024 → format_size (s : ℚ) = some ((s : ℚ), "B")) ∧
    (1024 ≤ (s : ℚ) → (s : ℚ) < 1024 ^ 2 →
      format_size (s : ℚ) = some ((s : ℚ) / 1024, "KB")) ∧
    (1024 ^ 2 ≤ (s : ℚ) → (s : ℚ) < 1024 ^ 3 →
      format_size (s : ℚ) = some ((s : ℚ) / 1024 ^ 2, "MB")) ∧
    (1024 ^ 3 ≤ (s : ℚ) →
      format_size (s : ℚ) = some ((s : ℚ) / 1024 ^ 3, "GB")) ∧
    (get_summary org).size_rendered = format_size ((org.stats.total_size : ℚ)) := by
  have c1 : (0 : ℚ) < 1024 := by norm_num
  have hB : ∀ q : ℚ, q < 1024 → format_size q = some (q, "B") := by
    intro q h
    simp [format_size, format_size_loop, h]
  have hKB : ∀ q : ℚ, ¬ q < 1024 → q / 1024 < 1024 →
      format_size q = some (q / 1024, "KB") := by
    intro q h1 h2
    simp [format_size, format_size_loop, h1, h2]
  have hMB : ∀ q : ℚ, ¬ q < 1024 → ¬ q / 1024 < 1024 → q / 1024 / 1024 < 1024 →
      format_size q = some (q / 1024 / 1024, "MB") := by
    intro q h1 h2 h3
    simp [format_size, format_size_loop, h1, h2, h3]
  have hGB : ∀ q : ℚ, ¬ q < 1024 → ¬ q / 1024 < 1024 → ¬ q / 1024 / 1024 < 1024 →
      format_size q = some (q / 1024 / 1024 / 1024, "GB") := by
    intro q h1 h2 h3
    simp [format_size, format_size_loop, h1, h2, h3]
  have hdd2 : (s : ℚ) / 1024 / 1024 = (s : ℚ) / 1024 ^ 2 := by
    rw [div_div]
    norm_num
  have hdd3 : (s : ℚ) / 1024 / 1024 / 1024 = (s : ℚ) / 1024 ^ 3 := by
    rw [div_div, div_div]
    norm_num
  refine ⟨?_, hB (s : ℚ), ?_, ?_, ?_, rfl⟩
  · by_cases h1 : (s : ℚ) < 1024
    · exact ⟨_, _, hB _ h1⟩
    · by_cases h2 : (s : ℚ) / 1024 < 1024
      · exact ⟨_, _, hKB _ h1 h2⟩
      · by_cases h3 : (s : ℚ) / 1024 / 1024 < 1024
        · exact ⟨_, _, hMB _ h1 h2 h3⟩
        · exact ⟨_, _, hGB _ h1 h2 h3⟩
  · intro hlo hhi
    apply hKB
    · linarith
    · rw [div_lt_iff₀ c1]
      calc (s : ℚ) < 1024 ^ 2 := hhi
        _ = 1024 * 1024 := by norm_num
  · intro hlo hhi
    rw [← hdd2]
    apply hMB
    · have : (1024 : ℚ) ≤ 1024 ^ 2 := by norm_num
      linarith
    · rw [not_lt, le_div_iff₀ c1]
      calc (1024 : ℚ) * 1024 = 1024 ^ 2 := by norm_num
        _ ≤ (s : ℚ) := hlo
    · rw [div_div, div_lt_iff₀ (by norm_num : (0 : ℚ) < 1024 * 1024)]
      calc (s : ℚ) < 1024 ^ 3 := hhi
        _ = 1024 * (1024 * 1024) := by norm_num
  · intro hlo
    rw [← hdd3]
    apply hGB
    · have : (1024 : ℚ) ≤ 1024 ^ 3 := by norm_num
      linarith
    · rw [not_lt, le_div_iff₀ c1]
      have : (1024 : ℚ) * 1024 ≤ 1024 ^ 3 := by norm_num
      linarith
    · rw [div_div, not_lt, le_div_iff₀ (by norm_num : (0 : ℚ) < 1024 * 1024)]
      calc (1024 : ℚ) * (1024 * 1024) = 1024 ^ 3 := by norm_num
        _ ≤ (s : ℚ) := hlo

/-- Witness for C8: five gibibytes render as an uncapped `GB` value. -/
theorem C8_format_size_witness :
    format_size ((5 * 1024 ^ 3 : ℕ) : ℚ) =
      some (((5 * 1024 ^ 3 : ℕ) : ℚ) / 1024 ^ 3, "GB") ∧
    (get_summary exOrg).size_rendered = format_size ((exOrg.stats.total_size : ℚ)) :=
  ⟨(C8_format_size (5 * 1024 ^ 3) exOrg).2.2.2.2.1 (by push_cast; norm_num),
   (C8_format_size 0 exOrg).2.2.2.2.2⟩

/-- Sum of all per-category counts. -/
def sumCounts (m : List (String × Nat)) : Nat := (m.map Prod.snd).sum

lemma map_update_id {m : List (String × Nat)} {k : String}
    (h : ∀ e ∈ m, e.1 ≠ k) :
    m.map (fun e => if e.1 == k then (e.1, e.2 + 1) else e) = m := by
  induction m with
  | nil => rfl
  | cons a t ih =>
    have ha : (a.1 == k) = false := by simp [h a (by simp)]
    simp only [List.map_cons, ha, if_neg, Bool.false_eq_true, not_false_eq_true]
    rw [ih (fun e he => h e (by simp [he]))]

lemma bump_sum {m : List (String × Nat)} {k : String}
    (hnd : (m.map Prod.fst).Nodup) : sumCounts (bump m k) = sumCounts m + 1 := by
  unfold bump
  by_cases hany : m.any (fun e => e.1 == k) = true
  · rw [if_pos hany]
    induction m with
    | nil => cases hany
    | cons a t ih =>
      simp only [List.map_cons, List.nodup_cons] at hnd
      by_cases hak : a.1 = k
      · have hid : t.map (fun e => if e.1 == k then (e.1, e.2 + 1) else e) = t := by
          apply map_update_id
          intro e he hek
          exact hnd.1 (List.mem_map.2 ⟨e, he, by rw [hek, hak]⟩)
        simp only [List.map_cons, hak, beq_self_eq_true, if_pos, sumCounts, List.map_cons,
          List.sum_cons, hid]
        omega
      · have ha : (a.1 == k) = false := by simp [hak]
        have hany2 : t.any (fun e => e.1 == k) = true := by
          rcases List.any_eq_true.1 hany with ⟨e, he, hek⟩
          rcases List.mem_cons.1 he with rfl | he2
          · rw [ha] at hek; cases hek
          · exact List.any_eq_true.2 ⟨e, he2, hek⟩
        have := ih hnd.2 hany2
        simp only [List.map_cons, ha, if_neg, Bool.false_eq_true, not_false_eq_true,
          sumCounts, List.sum_cons] at this ⊢
        omega
  · rw [if_neg hany]
    simp [sumCounts]

lemma bump_nodup {m : List (String × Nat)} {k : String}
    (hnd : (m.map Prod.fst).Nodup) : ((bump m k).map Prod.fst).Nodup := by
  unfold bump
  by_cases hany : m.any (fun e => e.1 == k) = true
  · rw [if_pos hany]
    have : (m.map (fun e => if e.1 == k then (e.1, e.2 + 1) else e)).map Prod.fst =
        m.map Prod.fst := by
      rw [List.map_map]
      apply List.map_congr_left
      intro e _
      by_cases hek : e.1 = k <;> simp [hek]
    rw [this]
    exact hnd
  · rw [if_neg hany]
    rw [List.map_append]
    simp only [List.map_cons, List.map_nil]
    have hk : k ∉ m.map Prod.fst := by
      intro hm
      rcases List.mem_map.1 hm with ⟨e, he, hek⟩
      have : m.any (fun e => e.1 == k) = true := List.any_eq_true.2 ⟨e, he, by simp [hek]⟩
      exact hany this
    simp [List.nodup_append, hnd, hk]

/-- Case analysis of one loop iteration: an entry is passed over, counted
as excluded, counted and then failed, or counted and organized. -/
lemma processFile_stats_cases (ctx : Ctx) (dir : FPath) (byDate copyMode : Bool)
    (org : Organizer) (fs : FS) (x : String) :
    (processFile ctx dir byDate copyMode (org, fs) x = (org, fs)) ∨
    ((processFile ctx dir byDate copyMode (org, fs) x).1.stats = org.stats.skip1 ∧
      (processFile ctx dir byDate copyMode (org, fs) x).1.operation_history =
        org.operation_history) ∨
    ((processFile ctx dir byDate copyMode (org, fs) x).1.stats =
      { org.stats with
          total_files := org.stats.total_files + 1
          total_size := org.stats.total_size + fs.getsize (dir ++ [x])
          skipped_files := org.stats.skipped_files + 1 } ∧
      (processFile ctx dir byDate copyMode (org, fs) x).1.operation_history =
        org.operation_history) ∨
    ((processFile ctx dir byDate copyMode (org, fs) x).1.stats =
      { org.stats with
          total_files := org.stats.total_files + 1
          total_size := org.stats.total_size + fs.getsize (dir ++ [x])
          organized_files := org.stats.organized_files + 1
          categories := bump org.stats.categories (classify org.file_types x) }) := by
  by_cases h1 : (fs.isdir (dir ++ [x]) || x == scriptName || strEndsWith x ".log") = true
  · left
    simp [processFile, h1]
  · have h1f : (fs.isdir (dir ++ [x]) || x == scriptName || strEndsWith x ".log") = false := by
      revert h1
      cases fs.isdir (dir ++ [x]) || x == scriptName || strEndsWith x ".log" <;> simp
    by_cases h2 : is_excluded ctx.matchAt org.excluded_patterns x = true
    · right; left
      constructor <;> simp [processFile, h1f, h2]
    · have h2f : is_excluded ctx.matchAt org.excluded_patterns x = false := by
        revert h2
        cases is_excluded ctx.matchAt org.excluded_patterns x <;> simp
      by_cases h3 : (dir ++ [x]) ∈ ctx.failing
      · right; right; left
        constructor <;> simp [processFile, h1f, h2f, h3, Stats.skip1]
      · right; right; right
        simp [processFile, h1f, h2f, h3]

/-- Loop invariant of the per-entry fold: the counters only grow, by the
pattern `total = +organized +failed`, `skipped = +excluded +failed`, and the
per-category sum tracks `organized`. -/
lemma fold_stats_invariant (ctx : Ctx) (dir : FPath) (byDate copyMode : Bool) :
    ∀ (l : List String) (org : Organizer) (fs : FS),
      (org.stats.categories.map Prod.fst).Nodup →
      ∃ O F E,
        (l.foldl (processFile ctx dir byDate copyMode) (org, fs)).1.stats.total_files =
          org.stats.total_files + O + F ∧
        (l.foldl (processFile ctx dir byDate copyMode) (org, fs)).1.stats.organized_files =
          org.stats.organized_files + O ∧
        (l.foldl (processFile ctx dir byDate copyMode) (org, fs)).1.stats.skipped_files =
          org.stats.skipped_files + E + F ∧
        sumCounts (l.foldl (processFile ctx dir byDate copyMode) (org, fs)).1.stats.categories =
          sumCounts org.stats.categories + O ∧
        ((l.foldl (processFile ctx dir byDate copyMode) (org, fs)).1.stats.categories.map
          Prod.fst).Nodup := by
  intro l
  induction l with
  | nil =>
    intro org fs hnd
    exact ⟨0, 0, 0, by simp, by simp, by simp, by simp, hnd⟩
  | cons x rest ih =>
    intro org fs hnd
    rw [List.foldl_cons]
    rcases processFile_stats_cases ctx dir byDate copyMode org fs x with
      hc | ⟨hc, _⟩ | ⟨hc, _⟩ | hc
    · rw [hc]
      exact ih org fs hnd
    · obtain ⟨O, F, E, h1, h2, h3, h4, h5⟩ :=
        ih (processFile ctx dir byDate copyMode (org, fs) x).1
          (processFile ctx dir byDate copyMode (org, fs) x).2 (by rw [hc]; exact hnd)
      rw [Prod.mk.eta] at h1 h2 h3 h4 h5
      rw [hc] at h1 h2 h3 h4
      refine ⟨O, F, E + 1, ?_, ?_, ?_, ?_, h5⟩ <;> simp [Stats.skip1] at h1 h2 h3 h4 ⊢ <;> omega
    · obtain ⟨O, F, E, h1, h2, h3, h4, h5⟩ :=
        ih (processFile ctx dir byDate copyMode (org, fs) x).1
          (processFile ctx dir byDate copyMode (org, fs) x).2 (by rw [hc]; exact hnd)
      rw [Prod.mk.eta] at h1 h2 h3 h4 h5
      rw [hc] at h1 h2 h3 h4
      refine ⟨O, F + 1, E, ?_, ?_, ?_, ?_, h5⟩ <;> simp at h1 h2 h3 h4 ⊢ <;> omega
    · obtain ⟨O, F, E, h1, h2, h3, h4, h5⟩ :=
        ih (processFile ctx dir byDate copyMode (org, fs) x).1
          (processFile ctx dir byDate copyMode (org, fs) x).2
          (by rw [hc]; exact bump_nodup hnd)
      rw [Prod.mk.eta] at h1 h2 h3 h4 h5
      rw [hc] at h1 h2 h3 h4
      have hbs := bump_sum (k := classify org.file_types x) hnd
      refine ⟨O + 1, F, E, ?_, ?_, ?_, ?_, h5⟩ <;> simp [hbs] at h1 h2 h3 h4 ⊢ <;> omega

lemma sumCounts_init (ks : List String) : sumCounts (ks.map (fun k => (k, 0))) = 0 := by
  simp only [sumCounts, List.map_map]
  apply List.sum_eq_zero
  intro x hx
  rcases List.mem_map.1 hx with ⟨k, _, rfl⟩
  rfl

lemma keysWithOthers_nodup {file_types : List (String × List String)}
    (h : (file_types.map Prod.fst).Nodup) : (keysWithOthers file_types).Nodup := by
  unfold keysWithOthers
  by_cases hm : "Others" ∈ file_types.map Prod.fst
  · simp [hm, h]
  · simp only [hm, if_neg, not_false_eq_true]
    simp [List.nodup_append, h, hm]

lemma initStats_keys (file_types : List (String × List String)) :
    (initStats file_types).categories.map Prod.fst = keysWithOthers file_types := by
  simp only [initStats, List.map_map]
  have : (Prod.fst ∘ fun k => ((k : String), (0 : Nat))) = id := by
    funext k
    rfl
  rw [this, List.map_id]

lemma organize_eq_foldl (ctx : Ctx) (org : Organizer) (fs : FS) (dir : FPath)
    (byDate copyMode : Bool) :
    ∃ fs1 : FS, organize_files ctx org fs dir byDate copyMode =
      (fs1.listdir dir).foldl (processFile ctx dir byDate copyMode)
        ({ org with stats := initStats org.file_types }, fs1) :=
  ⟨_, rfl⟩

/-- C10: at the end of every run `totalFiles = organizedFiles + F` where
`F` counts entries whose transfer failed, `skippedFiles = E + F` where `E`
counts exclusion-pattern skips — so `skippedFiles` aggregates both kinds —
and `organizedFiles` equals the sum of the per-category counts.  A failing
entry was already counted in `totalFiles` with its byte size added to
`totalSizeBytes`, is additionally counted in `skippedFiles`, and changes
nothing else. -/
theorem C10_statistics (ctx : Ctx) (org : Organizer) (fs : FS) (dir : FPath)
    (byDate copyMode : Bool) (hnd : (org.file_types.map Prod.fst).Nodup) :
    (∃ F E,
      (organize_files ctx org fs dir byDate copyMode).1.stats.total_files =
        (organize_files ctx org fs dir byDate copyMode).1.stats.organized_files + F ∧
      (organize_files ctx org fs dir byDate copyMode).1.stats.skipped_files = E + F ∧
      (organize_files ctx org fs dir byDate copyMode).1.stats.organized_files =
        sumCounts (organize_files ctx org fs dir byDate copyMode).1.stats.categories) ∧
    (∀ (org2 : Organizer) (fs2 : FS) (x : String),
      (fs2.isdir (dir ++ [x]) || x == scriptName || strEndsWith x ".log") = false →
      is_excluded ctx.matchAt org2.excluded_patterns x = false →
      (dir ++ [x]) ∈ ctx.failing →
      (processFile ctx dir byDate copyMode (org2, fs2) x).1.stats.total_files =
        org2.stats.total_files + 1 ∧
      (processFile ctx dir byDate copyMode (org2, fs2) x).1.stats.total_size =
        org2.stats.total_size + fs2.getsize (dir ++ [x]) ∧
      (processFile ctx dir byDate copyMode (org2, fs2) x).1.stats.skipped_files =
        org2.stats.skipped_files + 1 ∧
      (processFile ctx dir byDate copyMode (org2, fs2) x).1.stats.organized_files =
        org2.stats.organized_files ∧
      (processFile ctx dir byDate copyMode (org2, fs2) x).1.stats.categories =
        org2.stats.categories ∧
      (processFile ctx dir byDate copyMode (org2, fs2) x).1.operation_history =
        org2.operation_history ∧
      (processFile ctx dir byDate copyMode (org2, fs2) x).2.files = fs2.files) := by
  constructor
  · obtain ⟨fs1, heq⟩ := organize_eq_foldl ctx org fs dir byDate copyMode
    rw [heq]
    have hnd0 : ((({ org with stats := initStats org.file_types } : Organizer)).stats.categories.map
        Prod.fst).Nodup := by
      show ((initStats org.file_types).categories.map Prod.fst).Nodup
      rw [initStats_keys]
      exact keysWithOthers_nodup hnd
    obtain ⟨O, F, E, h1, h2, h3, h4, _⟩ :=
      fold_stats_invariant ctx dir byDate copyMode (fs1.listdir dir)
        { org with stats := initStats org.file_types } fs1 hnd0
    have hb1 : (({ org with stats := initStats org.file_types } : Organizer)).stats.total_files
        = 0 := rfl
    have hb2 : (({ org with stats := initStats org.file_types } : Organizer)).stats.organized_files
        = 0 := rfl
    have hb3 : (({ org with stats := initStats org.file_types } : Organizer)).stats.skipped_files
        = 0 := rfl
    have hb4 : sumCounts
        (({ org with stats := initStats org.file_types } : Organizer)).stats.categories = 0 := by
      show sumCounts (initStats org.file_types).categories = 0
      exact sumCounts_init _
    rw [hb1] at h1
    rw [hb2] at h2
    rw [hb3] at h3
    rw [hb4] at h4
    exact ⟨F, E, by omega, by omega, by rw [h2, h4]⟩
  · intro org2 fs2 x h1 h2 h3
    refine ⟨?_, ?_, ?_, ?_, ?_, ?_, ?_⟩ <;> simp [processFile, h1, h2, h3, Stats.skip1]
    cases byDate <;> simp
    split <;> rfl

/-- Witness for C10 on a concrete two-file run. -/
theorem C10_statistics_witness :
    ∃ F E,
      (organize_files exCtx exOrg exFS ["d"] false false).1.stats.total_files =
        (organize_files exCtx exOrg exFS ["d"] false false).1.stats.organized_files + F ∧
      (organize_files exCtx exOrg exFS ["d"] false false).1.stats.skipped_files = E + F ∧
      (organize_files exCtx exOrg exFS ["d"] false false).1.stats.organized_files =
        sumCounts (organize_files exCtx exOrg exFS ["d"] false false).1.stats.categories :=
  (C10_statistics exCtx exOrg exFS ["d"] false false (by decide)).1

lemma isdir_of_mem {fs : FS} {p : FPath} (h : p ∈ fs.dirs) : fs.isdir p = true := by
  simp only [FS.isdir, List.any_eq_true]
  exact ⟨p, h, by simp⟩

lemma makedirs_files (fs : FS) (p : FPath) : (fs.makedirs p).files = fs.files := rfl

lemma foldl_makedirs_files (dir : FPath) (l : List (String × List String)) :
    ∀ fs : FS,
      (l.foldl (fun f ft =>
        let p := dir ++ [ft.1]
        if f.existsPath p then f else f.makedirs p) fs).files = fs.files := by
  induction l with
  | nil => intro fs; rfl
  | cons a t ih =>
    intro fs
    rw [List.foldl_cons]
    rw [ih]
    by_cases h : fs.existsPath (dir ++ [a.1]) = true <;> simp [h, makedirs_files]

lemma listdir_mem_dirs {fs1 : FS} {dir : FPath} {x : String}
    (hfiles : ∀ e ∈ fs1.files, e.1.dropLast ≠ dir)
    (hx : x ∈ fs1.listdir dir) : (dir ++ [x]) ∈ fs1.dirs := by
  simp only [FS.listdir, List.mem_filterMap] at hx
  obtain ⟨p, hp, hif⟩ := hx
  by_cases hdl : p.dropLast = dir
  · rw [if_pos (by simp [hdl])] at hif
    have hpne : p ≠ [] := by
      rintro rfl
      simp at hif
    have hgl : p.getLast hpne = x := by
      rw [List.getLast?_eq_getLast p hpne] at hif
      injection hif
    have hpx : p = dir ++ [x] := by
      rw [← hdl, ← hgl]
      exact (List.dropLast_append_getLast hpne).symm
    rcases List.mem_append.1 hp with hf | hd
    · exfalso
      rcases List.mem_map.1 hf with ⟨e, he, hep⟩
      exact hfiles e he (by rw [hep, hdl])
    · rw [← hpx]
      exact hd
  · rw [if_neg (by simp [hdl])] at hif
    cases hif

lemma foldl_processFile_all_dirs (ctx : Ctx) (dir : FPath) (byDate copyMode : Bool) :
    ∀ (l : List String) (st : Organizer × FS),
      (∀ x ∈ l, st.2.isdir (dir ++ [x]) = true) →
      l.foldl (processFile ctx dir byDate copyMode) st = st := by
  intro l
  induction l with
  | nil => intro st _; rfl
  | cons x rest ih =>
    intro st h
    rw [List.foldl_cons]
    have hx : st.2.isdir (dir ++ [x]) = true := h x (by simp)
    have hstep : processFile ctx dir byDate copyMode st x = st := by
      have hb : (st.2.isdir (dir ++ [x]) || x == scriptName || strEndsWith x ".log") = true := by
        simp [hx]
      simp [processFile, hb]
    rw [hstep]
    exact ih st (fun y hy => h y (by simp [hy]))

lemma mem_pathAncestors_self {p : FPath} (h : p ≠ []) : p ∈ pathAncestors p := by
  simp only [pathAncestors, List.mem_map]
  refine ⟨p.length - 1, ?_, ?_⟩
  · rw [List.mem_range]
    have : p.length ≠ 0 := by simpa using h
    omega
  · have : p.length - 1 + 1 = p.length := by
      have : p.length ≠ 0 := by simpa using h
      omega
    rw [this, List.take_length]

lemma setupFS_files (org : Organizer) (fs : FS) (dir : FPath) :
    (setupFS org fs dir).files = fs.files := by
  unfold setupFS
  by_cases h : ((org.file_types.foldl (fun f ft =>
      let p := dir ++ [ft.1]
      if f.existsPath p then f else f.makedirs p) fs)).existsPath (dir ++ ["Others"]) = true
  · rw [if_pos h]
    exact foldl_makedirs_files dir org.file_types fs
  · rw [if_neg h, makedirs_files]
    exact foldl_makedirs_files dir org.file_types fs

lemma makedirs_self_mem {fs : FS} {p : FPath} (hp : p ≠ []) (h : fs.isdir p = false) :
    p ∈ (fs.makedirs p).dirs := by
  simp only [FS.makedirs, List.mem_append]
  right
  rw [List.mem_filter]
  exact ⟨mem_pathAncestors_self hp, by simp [h]⟩

lemma setupFS_others_mem (org : Organizer) (fs : FS) (dir : FPath)
    (hfiles : ∀ e ∈ fs.files, e.1.dropLast ≠ dir) :
    dir ++ ["Others"] ∈ (setupFS org fs dir).dirs := by
  unfold setupFS
  by_cases h : ((org.file_types.foldl (fun f ft =>
      let p := dir ++ [ft.1]
      if f.existsPath p then f else f.makedirs p) fs)).existsPath (dir ++ ["Others"]) = true
  · rw [if_pos h]
    rcases (existsPath_mem _ _).1 h with hf | hd
    · exfalso
      rcases List.mem_map.1 hf with ⟨e, he, hep⟩
      rw [foldl_makedirs_files dir org.file_types fs] at he
      exact hfiles e he (by rw [hep, List.dropLast_concat])
    · exact hd
  · rw [if_neg h]
    apply makedirs_self_mem (by simp)
    have hx : ((org.file_types.foldl (fun f ft =>
        let p := dir ++ [ft.1]
        if f.existsPath p then f else f.makedirs p) fs)).existsPath
          (dir ++ ["Others"]) = false := by
      revert h
      cases ((org.file_types.foldl (fun f ft =>
        let p := dir ++ [ft.1]
        if f.existsPath p then f else f.makedirs p) fs)).existsPath (dir ++ ["Others"]) <;>
        simp
    simp only [FS.existsPath, Bool.or_eq_false_iff] at hx
    exact hx.2

/-- C6 counterexample: on a non-existent target directory the run neither
raises nor leaves the state untouched — the statistics are reset and
category folders (including the target directory itself) are created. -/
theorem C6_missing_directory_counterexample :
    exFS6.existsPath ["d"] = false ∧
    (organize_files exCtx exOrg6 exFS6 ["d"] false false).1.stats ≠ exOrg6.stats ∧
    (organize_files exCtx exOrg6 exFS6 ["d"] false false).2.dirs ≠ exFS6.dirs ∧
    ["d", "Others"] ∈ (organize_files exCtx exOrg6 exFS6 ["d"] false false).2.dirs := by
  refine ⟨?_, ?_, ?_, ?_⟩ <;> decide

/-- C6 (amended): `organize_files` performs no reachability check of its
own (the interactive callers do); it resets the statistics unconditionally
before touching the file system, and on a target directory that does not
exist it completes normally — `os.makedirs` creates the directory and its
category subfolders, the enumeration sees only those fresh folders, every
one is skipped as a directory, and the returned statistics are the freshly
reset zeros.  The half of the claim about per-file failures does hold: a
failing transfer only increments `skipped_files` and the loop continues
with the next entry. -/
theorem C6_missing_directory (ctx : Ctx) (org : Organizer) (fs : FS) (dir : FPath)
    (byDate copyMode : Bool)
    (hfiles : ∀ e ∈ fs.files, e.1.dropLast ≠ dir)
    (hdirs : ∀ d ∈ fs.dirs, d.dropLast ≠ dir) :
    (organize_files ctx org fs dir byDate copyMode).1.stats = initStats org.file_types ∧
    (organize_files ctx org fs dir byDate copyMode).1.operation_history =
      org.operation_history ∧
    (organize_files ctx org fs dir byDate copyMode).2.files = fs.files ∧
    dir ++ ["Others"] ∈ (organize_files ctx org fs dir byDate copyMode).2.dirs ∧
    dir ++ ["Others"] ∉ fs.dirs ∧
    (∀ (org2 : Organizer) (fs2 : FS) (x : String) (rest : List String),
      (fs2.isdir (dir ++ [x]) || x == scriptName || strEndsWith x ".log") = false →
      is_excluded ctx.matchAt org2.excluded_patterns x = false →
      (dir ++ [x]) ∈ ctx.failing →
      (x :: rest).foldl (processFile ctx dir byDate copyMode) (org2, fs2) =
        rest.foldl (processFile ctx dir byDate copyMode)
          (processFile ctx dir byDate copyMode (org2, fs2) x) ∧
      (processFile ctx dir byDate copyMode (org2, fs2) x).1.stats.skipped_files =
        org2.stats.skipped_files + 1) := by
  have hsf : (setupFS org fs dir).files = fs.files := setupFS_files org fs dir
  have hall : ∀ x ∈ (setupFS org fs dir).listdir dir,
      (setupFS org fs dir).isdir (dir ++ [x]) = true := by
    intro x hx
    apply isdir_of_mem
    apply listdir_mem_dirs _ hx
    intro e he
    rw [hsf] at he
    exact hfiles e he
  have horg : organize_files ctx org fs dir byDate copyMode =
      ({ org with stats := initStats org.file_types }, setupFS org fs dir) := by
    show ((setupFS org fs dir).listdir dir).foldl (processFile ctx dir byDate copyMode)
      ({ org with stats := initStats org.file_types }, setupFS org fs dir) = _
    exact foldl_processFile_all_dirs ctx dir byDate copyMode _ _ hall
  rw [horg]
  refine ⟨rfl, rfl, hsf, setupFS_others_mem org fs dir hfiles, ?_, ?_⟩
  · intro hmem
    exact hdirs _ hmem (List.dropLast_concat)
  · intro org2 fs2 x rest h1 h2 h3
    refine ⟨List.foldl_cons _ _, ?_⟩
    simp [processFile, h1, h2, h3, Stats.skip1]

/-- Witness for C6 (amended) on an empty file system and the directory
`d`. -/
theorem C6_missing_directory_witness :
    (organize_files exCtx exOrg6 exFS6 ["d"] false false).1.stats =
      initStats exOrg6.file_types ∧
    ["d", "Others"] ∈ (organize_files exCtx exOrg6 exFS6 ["d"] false false).2.dirs :=
  ⟨(C6_missing_directory exCtx exOrg6 exFS6 ["d"] false false
      (by intro e he; cases he) (by intro d hd; cases hd)).1,
   (C6_missing_directory exCtx exOrg6 exFS6 ["d"] false false
      (by intro e he; cases he) (by intro d hd; cases hd)).2.2.2.1⟩

/-- Shape of one loop iteration in move mode: either the history and the
file map are untouched, or exactly one move record is appended whose
destination was free at transfer time. -/
lemma processFile_move_shape (ctx : Ctx) (dir : FPath) (byDate : Bool)
    (org : Organizer) (fs : FS) (x : String) :
    ((processFile ctx dir byDate false (org, fs) x).1.operation_history =
        org.operation_history ∧
      ∀ p, (processFile ctx dir byDate false (org, fs) x).2.fileContent p =
        fs.fileContent p) ∨
    (∃ (fs1 : FS) (src dest : FPath),
      fs1.files = fs.files ∧
      fs1.existsPath dest = false ∧
      (processFile ctx dir byDate false (org, fs) x).1.operation_history =
        org.operation_history ++ [⟨OpKind.move, src, dest⟩] ∧
      (processFile ctx dir byDate false (org, fs) x).2 = fs1.move src dest) := by
  by_cases h1 : (fs.isdir (dir ++ [x]) || x == scriptName || strEndsWith x ".log") = true
  · left
    constructor
    · simp [processFile, h1]
    · intro p
      simp [processFile, h1]
  · have h1f : (fs.isdir (dir ++ [x]) || x == scriptName || strEndsWith x ".log") = false := by
      revert h1
      cases fs.isdir (dir ++ [x]) || x == scriptName || strEndsWith x ".log" <;> simp
    by_cases h2 : is_excluded ctx.matchAt org.excluded_patterns x = true
    · left
      constructor
      · simp [processFile, h1f, h2]
      · intro p
        simp [processFile, h1f, h2]
    · have h2f : is_excluded ctx.matchAt org.excluded_patterns x = false := by
        revert h2
        cases is_excluded ctx.matchAt org.excluded_patterns x <;> simp
      cases hbd : byDate with
      | false =>
        by_cases h3 : (dir ++ [x]) ∈ ctx.failing
        · left
          constructor
          · simp [processFile, h1f, h2f, h3]
          · intro p
            simp [processFile, h1f, h2f, h3]
        · right
          refine ⟨fs, dir ++ [x], resolveDest fs (dir ++ [classify org.file_types x]) x, rfl,
            resolveDest_free _ _ _, ?_, ?_⟩ <;>
            simp [processFile, h1f, h2f, h3]
      | true =>
        by_cases hdf : fs.existsPath (dir ++ [classify org.file_types x,
            ctx.dateOf (dir ++ [x])]) = true
        · by_cases h3 : (dir ++ [x]) ∈ ctx.failing
          · left
            constructor
            · simp [processFile, h1f, h2f, h3, hdf]
            · intro p
              simp [processFile, h1f, h2f, h3, hdf]
          · right
            refine ⟨fs, dir ++ [x],
              resolveDest fs (dir ++ [classify org.file_types x, ctx.dateOf (dir ++ [x])]) x,
              rfl, resolveDest_free _ _ _, ?_, ?_⟩ <;>
              simp [processFile, h1f, h2f, h3, hdf]
        · have hdff : fs.existsPath (dir ++ [classify org.file_types x,
              ctx.dateOf (dir ++ [x])]) = false := by
            revert hdf
            cases fs.existsPath (dir ++ [classify org.file_types x, ctx.dateOf (dir ++ [x])]) <;>
              simp
          by_cases h3 : (dir ++ [x]) ∈ ctx.failing
          · left
            constructor
            · simp [processFile, h1f, h2f, h3, hdff]
            · intro p
              simp only [processFile, h1f, h2f, h3, hdff]
              simp [fileContent_eq_of_files_eq (makedirs_files fs _) p]
          · right
            refine ⟨fs.makedirs (dir ++ [classify org.file_types x, ctx.dateOf (dir ++ [x])]),
              dir ++ [x],
              resolveDest (fs.makedirs (dir ++ [classify org.file_types x,
                ctx.dateOf (dir ++ [x])]))
                (dir ++ [classify org.file_types x, ctx.dateOf (dir ++ [x])]) x,
              makedirs_files fs _, resolveDest_free _ _ _, ?_, ?_⟩ <;>
              simp [processFile, h1f, h2f, h3, hdff]

/-- Undoing one recorded move whose destination was free at transfer time
restores the file map exactly and pops the record, whatever happened to
the directory set in between. -/
lemma undo_step_restore (T : Organizer × FS) (H : List Operation)
    (src dest : FPath) (fs1 : FS)
    (hhist : T.1.operation_history = H ++ [⟨OpKind.move, src, dest⟩])
    (hfree : fs1.existsPath dest = false)
    (hmap : ∀ p, T.2.fileContent p = (fs1.move src dest).fileContent p) :
    (undo_last_operation T.1 T.2).1.1.operation_history = H ∧
    ∀ p, (undo_last_operation T.1 T.2).1.2.fileContent p = fs1.fileContent p := by
  have hdnone : fs1.fileContent dest = none := fileContent_none_of_not_existsPath hfree
  have hlast : T.1.operation_history.getLast? = some ⟨OpKind.move, src, dest⟩ := by
    rw [hhist]
    exact List.getLast?_concat H
  have hdrop : T.1.operation_history.dropLast = H := by
    rw [hhist]
    exact List.dropLast_concat
  cases hs : fs1.fileContent src with
  | some c =>
    have hne : ¬ src = dest := by
      intro h
      rw [h, hdnone] at hs
      cases hs
    have hTd : T.2.fileContent dest = some c := by
      rw [hmap dest, move_fileContent hs hdnone dest, if_pos rfl]
    have hTs : T.2.fileContent src = none := by
      rw [hmap src, move_fileContent hs hdnone src, if_neg hne, if_pos rfl]
    have hex : T.2.existsPath dest = true := existsPath_of_fileContent_some hTd
    have hundo : undo_last_operation T.1 T.2 =
        (({ T.1 with operation_history := H }, T.2.move dest src), true) := by
      simp only [undo_last_operation, hlast, hdrop, hex]
      simp
    rw [hundo]
    refine ⟨rfl, ?_⟩
    intro p
    show (T.2.move dest src).fileContent p = fs1.fileContent p
    rw [move_fileContent hTd hTs p]
    by_cases hps : p = src
    · rw [if_pos hps, hps, hs]
    · rw [if_neg hps]
      by_cases hpd : p = dest
      · rw [if_pos hpd, hpd, hdnone]
      · rw [if_neg hpd, hmap p, move_fileContent hs hdnone p, if_neg hpd, if_neg hps]
  | none =>
    have hmvid : fs1.move src dest = fs1 := move_of_fileContent_none dest hs
    have hmap2 : ∀ p, T.2.fileContent p = fs1.fileContent p := by
      intro p
      rw [hmap p, hmvid]
    cases hex : T.2.existsPath dest with
    | true =>
      have hTd : T.2.fileContent dest = none := by
        rw [hmap2 dest, hdnone]
      have hmv2 : T.2.move dest src = T.2 := move_of_fileContent_none src hTd
      have hundo : undo_last_operation T.1 T.2 =
          (({ T.1 with operation_history := H }, T.2.move dest src), true) := by
        simp only [undo_last_operation, hlast, hdrop, hex]
        simp
      rw [hundo]
      refine ⟨rfl, ?_⟩
      intro p
      show (T.2.move dest src).fileContent p = fs1.fileContent p
      rw [hmv2, hmap2 p]
    | false =>
      have hundo : undo_last_operation T.1 T.2 =
          (({ T.1 with operation_history := H }, T.2), false) := by
        simp only [undo_last_operation, hlast, hdrop, hex]
        simp
      rw [hundo]
      exact ⟨rfl, hmap2⟩

/-- Undoing the operations recorded by the per-entry loop, most recent
first, restores the file map and the operation history to what they were
before the loop ran. -/
lemma restore_fold (ctx : Ctx) (dir : FPath) (byDate : Bool) :
    ∀ (l : List String) (org : Organizer) (fs : FS),
      ∃ n,
        (l.foldl (processFile ctx dir byDate false) (org, fs)).1.operation_history.length =
          org.operation_history.length + n ∧
        (undoIter n (l.foldl (processFile ctx dir byDate false) (org, fs))).1.operation_history
          = org.operation_history ∧
        ∀ p, (undoIter n (l.foldl (processFile ctx dir byDate false) (org, fs))).2.fileContent p
          = fs.fileContent p := by
  intro l
  induction l with
  | nil =>
    intro org fs
    exact ⟨0, by simp, rfl, fun p => rfl⟩
  | cons x rest ih =>
    intro org fs
    rw [List.foldl_cons]
    obtain ⟨n, hlen, hhist, hmap⟩ :=
      ih (processFile ctx dir byDate false (org, fs) x).1
        (processFile ctx dir byDate false (org, fs) x).2
    rw [Prod.mk.eta] at hlen hhist hmap
    rcases processFile_move_shape ctx dir byDate org fs x with
      ⟨sh, sm⟩ | ⟨fs1, src, dest, hf1, hfree, sh, sr⟩
    · refine ⟨n, ?_, ?_, ?_⟩
      · rw [hlen, sh]
      · rw [hhist, sh]
      · intro p
        rw [hmap p, sm p]
    · have hmapT : ∀ p,
          (undoIter n (rest.foldl (processFile ctx dir byDate false)
            (processFile ctx dir byDate false (org, fs) x))).2.fileContent p =
          (fs1.move src dest).fileContent p := by
        intro p
        rw [hmap p, sr]
      have hhistT :
          (undoIter n (rest.foldl (processFile ctx dir byDate false)
            (processFile ctx dir byDate false (org, fs) x))).1.operation_history =
          org.operation_history ++ [⟨OpKind.move, src, dest⟩] := by
        rw [hhist, sh]
      obtain ⟨hu1, hu2⟩ := undo_step_restore
        (undoIter n (rest.foldl (processFile ctx dir byDate false)
          (processFile ctx dir byDate false (org, fs) x)))
        org.operation_history src dest fs1 hhistT hfree hmapT
      refine ⟨n + 1, ?_, ?_, ?_⟩
      · rw [hlen, sh, List.length_append]
        simp
        omega
      · show (undo_last_operation _ _).1.1.operation_history = org.operation_history
        exact hu1
      · intro p
        show (undo_last_operation _ _).1.2.fileContent p = fs.fileContent p
        rw [hu2 p]
        exact fileContent_eq_of_files_eq hf1 p

lemma undo_dirs (org : Organizer) (fs : FS) :
    (undo_last_operation org fs).1.2.dirs = fs.dirs := by
  cases hlast : org.operation_history.getLast? with
  | none => simp [undo_last_operation, hlast]
  | some op =>
    cases hk : op.kind <;>
      simp only [undo_last_operation, hlast, hk] <;>
      cases hex : fs.existsPath op.destination <;>
      simp [move_dirs, remove_dirs]

lemma undoIter_dirs : ∀ (n : Nat) (st : Organizer × FS),
    (undoIter n st).2.dirs = st.2.dirs := by
  intro n
  induction n with
  | zero => intro st; rfl
  | succ m ih =>
    intro st
    show (undo_last_operation (undoIter m st).1 (undoIter m st).2).1.2.dirs = st.2.dirs
    rw [undo_dirs, ih]

/-- C3 counterexample: organizing a directory with two files in move mode
and then calling undo once does not restore the original state — `a.jpg`
is no longer at its original path (only the most recent move, of `b.txt`,
was reverted) and the created `Photos` folder changed the directory
listing permanently. -/
theorem C3_roundtrip_counterexample :
    exFS.fileContent ["d", "a.jpg"] = some "A" ∧
    (undoIter 1 (organize_files exCtx exOrg exFS ["d"] false false)).2.fileContent
      ["d", "a.jpg"] = none ∧
    ["d", "Photos"] ∈ (undoIter 1 (organize_files exCtx exOrg exFS ["d"] false false)).2.dirs ∧
    ["d", "Photos"] ∉ exFS.dirs := by
  refine ⟨?_, ?_, ?_, ?_⟩ <;> decide

/-- C3 (amended): running `organize_files` with `copyInsteadOfMove=false`
and then calling `undoLast` once per operation the run recorded (each call
reverts exactly the most recent remaining move) restores every file to its
original path with its original content and restores the operation
history; the category and date folders created by the run are not removed
by undo, so the directory listing keeps them. -/
theorem C3_move_roundtrip (ctx : Ctx) (org : Organizer) (fs : FS) (dir : FPath)
    (byDate : Bool) :
    ∃ n,
      (organize_files ctx org fs dir byDate false).1.operation_history.length =
        org.operation_history.length + n ∧
      (undoIter n (organize_files ctx org fs dir byDate false)).1.operation_history =
        org.operation_history ∧
      (∀ p, (undoIter n (organize_files ctx org fs dir byDate false)).2.fileContent p =
        fs.fileContent p) ∧
      (undoIter n (organize_files ctx org fs dir byDate false)).2.dirs =
        (organize_files ctx org fs dir byDate false).2.dirs := by
  obtain ⟨n, hlen, hhist, hmap⟩ := restore_fold ctx dir byDate
    ((setupFS org fs dir).listdir dir) { org with stats := initStats org.file_types }
    (setupFS org fs dir)
  have heq : organize_files ctx org fs dir byDate false =
      ((setupFS org fs dir).listdir dir).foldl (processFile ctx dir byDate false)
        ({ org with stats := initStats org.file_types }, setupFS org fs dir) := rfl
  rw [heq]
  refine ⟨n, hlen, hhist, ?_, undoIter_dirs n _⟩
  intro p
  rw [hmap p]
  exact fileContent_eq_of_files_eq (setupFS_files org fs dir) p
